import Mathlib

/-!
# Verification of the tj-backend realtime ETA pipeline core

Shallow embedding of the bus-ETA pipeline of this repository
(`src/eta/route_analyzer.py`, `src/eta/bus_eta_application.py`,
`src/eta/eta_predictor.py`, `src/eta/trip_determiner.py`,
`src/eta/data_processor.py`, `src/main.py`) together with proofs about the
embedded operations.

Modelling conventions:
* Python floats are modelled as rationals (`ℚ`).  The geometric measurement
  primitives (shapely `nearest_points` projections and the equirectangular
  ground distance of `src/eta/helper.py`, both irrational-valued) are
  parameters of the embedded functions, exactly mirroring how the source
  composes them as injected helpers; the combinatorial logic around them is
  embedded verbatim.
* Python `list.insert` / `list.pop` / `list[i]` with their clamping and
  `IndexError` behaviour are modelled by `pyInsert` / `pyPop` / `Option`.
* The trained XGBoost regressor is an external artifact consumed as a black
  box; it appears as a `model` parameter returning one scalar per row.
-/

namespace TJ

/-- A geographic coordinate `(latitude, longitude)` as used in the source. -/
abbrev Coord : Type := ℚ × ℚ

/-- Python `list.insert(i, a)`: inserts before position `i`, clamping `i`
to the end of the list when it is out of range. -/
def pyInsert {α : Type} : List α → ℕ → α → List α
  | l, 0, a => a :: l
  | [], _ + 1, a => [a]
  | x :: xs, n + 1, a => x :: pyInsert xs n a

/-- Python `list.pop(i)`: removes and returns the element at position `i`;
`none` models the `IndexError` raised when `i` is out of range. -/
def pyPop {α : Type} : List α → ℕ → Option (α × List α)
  | [], _ => none
  | x :: xs, 0 => some (x, xs)
  | x :: xs, n + 1 => (pyPop xs n).map (fun p => (p.1, x :: p.2))

theorem pyInsert_nil {α : Type} (n : ℕ) (a : α) : pyInsert [] n a = [a] := by
  cases n <;> rfl

/-- Inserting at a valid position and then popping the same position restores
the original list (and returns the inserted element). -/
theorem pyPop_pyInsert {α : Type} (a : α) :
    ∀ (l : List α) (n : ℕ), n ≤ l.length → pyPop (pyInsert l n a) n = some (a, l) := by
  intro l
  induction l with
  | nil =>
    intro n hn
    have : n = 0 := Nat.le_zero.mp hn
    subst this
    rfl
  | cons x xs ih =>
    intro n hn
    cases n with
    | zero => rfl
    | succ m =>
      simp only [pyInsert, pyPop]
      rw [ih m (by simpa using hn)]
      rfl

/-! ## Route analyzer (`src/eta/route_analyzer.py`)

`RouteAnalyzer.next_stop_distance` temporarily inserts the anchor coordinate
into the trip's stored shape (`shape.insert(insert_index, (lat, lon))`), sums
equirectangular segment lengths from the anchor through the next stop, then
removes the inserted point again (`shape.pop(insert_index)`).

The insertion index is produced by `_insert_point_to_shape` from a shapely
projection and a `cKDTree` 2-nearest query over the segment `shape[l..r]`;
that geometric computation is taken as a parameter `insertIndex` here.  The
equirectangular segment length (`equirectangular_approx_distance(...)["km"]`)
is the parameter `segDist`. -/

/-- The summation loop of `next_stop_distance`:
`for i in range(insert_index + 1, end_index + 2): total += dist(shape[i-1], shape[i])`. -/
def segLoopSum (segDist : Coord → Coord → ℚ) (sh : List Coord) (lo hi : ℕ) : ℚ :=
  ((List.range (hi - lo)).map
    (fun k => segDist (sh.getD (lo + k - 1) (0, 0)) (sh.getD (lo + k) (0, 0)))).sum

/-- `RouteAnalyzer.next_stop_distance`, with the trip's stored shape made an
explicit value.  Returns the computed distance together with the state of the
stored shape after the call; `none` models the `IndexError` of `shape.pop`. -/
def nextStopDistance (segDist : Coord → Coord → ℚ) (shape : List Coord)
    (insertIndex endIndex : ℕ) (anchor : Coord) : Option (ℚ × List Coord) :=
  let sh := pyInsert shape insertIndex anchor
  let total := segLoopSum segDist sh (insertIndex + 1) (endIndex + 2)
  match pyPop sh insertIndex with
  | some p => some (total, p.2)
  | none => none

/-! ## Off-route gating (`src/eta/bus_eta_application.py`)

`determine_following_route` sets `following_route := distance_route <= 100`
per fix; `predict` aborts the per-vehicle pipeline with a `null` result when
the last fix's flag is false. -/

/-- The on-route threshold of `determine_following_route` (`thresh = 100`). -/
def onRouteThresh : ℚ := 100

/-- The flag assignment of `determine_following_route`:
`gps["following_route"] = gps["distance_route"] <= thresh`. -/
def followingRouteFlag (distanceRoute : ℚ) : Bool := distanceRoute ≤ onRouteThresh

/-- `determine_following_route`: computes `distance_route` for each fix with
the injected geometry (`distToRoute`, modelling
`RouteAnalyzer.calculate_distance_to_routes`) and attaches the flag. -/
def determineFollowingRoute {Fix : Type} (distToRoute : Fix → ℚ) (gps : List Fix) :
    List (Fix × ℚ × Bool) :=
  gps.map (fun f => (f, distToRoute f, followingRouteFlag (distToRoute f)))

/-- The per-vehicle body of `BusETAApplication.predict`: after the
`determine_following_route` stage, `if not gps['following_route'].iloc[-1]:
results[bus] = None`.  The later pipeline stages (trip determination, stop
context, prediction) are abstracted as `rest`. -/
def predictBus {Fix ρ : Type} (distToRoute : Fix → ℚ)
    (rest : List (Fix × ℚ × Bool) → Option ρ) (gps : List Fix) : Option ρ :=
  let g := determineFollowingRoute distToRoute gps
  match g.getLast? with
  | none => none
  | some t => if t.2.2 then rest g else none

/-! ## ETA predictor aggregation (`src/eta/eta_predictor.py`)

`ETAPredictor._accumulate_predictions` threads a Python dict
`preds : stop → list of cumulative sums`; `_finalize_predictions` drops the
stops whose list length differs from the window size and replaces each
surviving list by its 25th percentile (`np.percentile(vals, 25)`).
The dict is modelled as an insertion-ordered association list. -/

/-- `preds` dict lookup. -/
def dictFind {σ : Type} [DecidableEq σ] (d : List (σ × List ℚ)) (x : σ) :
    Option (List ℚ) :=
  (d.find? (fun kv => kv.1 == x)).map Prod.snd

/-- One body of the `for i, stop in enumerate(next_stops)` loop:
`if stop not in preds: preds[stop] = []` followed by `preds[stop].append(sum)`. -/
def dictAppend {σ : Type} [DecidableEq σ] (d : List (σ × List ℚ)) (stop : σ) (v : ℚ) :
    List (σ × List ℚ) :=
  if d.any (fun kv => kv.1 == stop) then
    d.map (fun kv => if kv.1 == stop then (kv.1, kv.2 ++ [v]) else kv)
  else
    d ++ [(stop, [v])]

/-- The loop of `_accumulate_predictions`, with the running `sum` explicit:
each row appends `sum + pred[i]` to its stop's accumulator. -/
def accumulateAux {σ : Type} [DecidableEq σ] :
    List (σ × ℚ) → ℚ → List (σ × List ℚ) → List (σ × List ℚ)
  | [], _, d => d
  | (stop, p) :: rest, s, d => accumulateAux rest (s + p) (dictAppend d stop (s + p))

/-- `ETAPredictor._accumulate_predictions(pred, next_stops, preds)`:
`sum = 0`, then for each row append the running cumulative sum to that row's
`next_stop` accumulator. -/
def accumulatePredictions {σ : Type} [DecidableEq σ] (pred : List ℚ) (nextStops : List σ)
    (preds : List (σ × List ℚ)) : List (σ × List ℚ) :=
  accumulateAux (nextStops.zip pred) 0 preds

/-- `np.percentile(vals, 25)` with the default linear interpolation:
`h = (n-1)/4`, result `= s[⌊h⌋] + (h - ⌊h⌋) · (s[⌊h⌋+1] - s[⌊h⌋])` on the
sorted values. -/
def percentile25 (vals : List ℚ) : ℚ :=
  let s := vals.mergeSort (fun a b => a ≤ b)
  let q := 25 * (vals.length - 1)
  let k := q / 100
  let r : ℚ := (q % 100 : ℕ)
  match s.get? (k + 1) with
  | some v2 => s.getD k 0 + (r / 100) * (v2 - s.getD k 0)
  | none => s.getD k 0

/-- `ETAPredictor._finalize_predictions(preds, n)`: pop every stop whose
accumulator length differs from `n`, then replace each surviving accumulator
by its 25th percentile. -/
def finalizePredictions {σ : Type} [DecidableEq σ] (d : List (σ × List ℚ)) (n : ℕ) :
    List (σ × ℚ) :=
  (d.filter (fun kv => kv.2.length == n)).map (fun kv => (kv.1, percentile25 kv.2))

/-- Lookup in the published per-stop ETA output. -/
def lookupEta {σ : Type} [DecidableEq σ] (out : List (σ × ℚ)) (x : σ) : Option ℚ :=
  (out.find? (fun kv => kv.1 == x)).map Prod.snd

/-- The window loop of `ETAPredictor.predict_eta`: each fix contributes its
list of (next_stop, predicted segment time) rows, accumulated into `preds`
starting from the empty dict. -/
def windowAccumulate {σ : Type} [DecidableEq σ] (rows : List (List (σ × ℚ))) :
    List (σ × List ℚ) :=
  rows.foldl (fun d r => accumulateAux r 0 d) []

/-- `predict_eta`'s aggregation across a window: accumulate every fix's rows
and finalize with `n = len(gps)`. -/
def aggregate {σ : Type} [DecidableEq σ] (rows : List (List (σ × ℚ))) : List (σ × ℚ) :=
  finalizePredictions (windowAccumulate rows) rows.length

/-- The per-fix cumulative sums, specification-side: the running prefix sums
of a fix's rows, labelled with each row's stop. -/
def runningSums {σ : Type} : List (σ × ℚ) → ℚ → List (σ × ℚ)
  | [], _ => []
  | (stop, p) :: rest, s => (stop, s + p) :: runningSums rest (s + p)

/-- The cumulative sums a single fix's rows contribute to stop `x`. -/
def stopSumsFrom {σ : Type} [DecidableEq σ] (l : List (σ × ℚ)) (s : ℚ) (x : σ) : List ℚ :=
  ((runningSums l s).filter (fun kv => kv.1 == x)).map Prod.snd

theorem dictFind_dictAppend {σ : Type} [DecidableEq σ] (d : List (σ × List ℚ))
    (stop x : σ) (v : ℚ) :
    dictFind (dictAppend d stop v) x =
      if x = stop then some ((dictFind d x).getD [] ++ [v]) else dictFind d x := by
  unfold dictAppend
  by_cases hany : d.any (fun kv => kv.1 == stop) = true
  · simp only [hany, if_true]
    unfold dictFind
    rw [List.find?_map]
    have hcomp : ((fun kv : σ × List ℚ => kv.1 == x) ∘
        (fun kv : σ × List ℚ => if kv.1 == stop then (kv.1, kv.2 ++ [v]) else kv)) =
        (fun kv : σ × List ℚ => kv.1 == x) := by
      funext kv
      by_cases h : kv.1 = stop <;> simp [h]
    rw [hcomp]
    rcases hfind : d.find? (fun kv => kv.1 == x) with _ | kv₀
    · have hxs : x ≠ stop := by
        intro hx
        subst hx
        rcases List.any_eq_true.mp hany with ⟨kv₁, hmem, hkv₁⟩
        exact (List.find?_eq_none.mp hfind kv₁ hmem) hkv₁
      simp [dictFind, hfind, hxs]
    · have hkey : kv₀.1 = x := by simpa using List.find?_some hfind
      by_cases hx : x = stop
      · subst hx
        simp [hfind, hkey, dictFind]
      · have hne : (kv₀.1 == stop) = false := by
          simp [hkey]
          intro h
          exact hx h
        simp [hfind, hne, hx, dictFind]
        rw [hkey, if_neg hx]
  · simp only [hany]
    rw [if_neg (by simp : ¬(false = true))]
    unfold dictFind
    rw [List.find?_append]
    have hnone : d.find? (fun kv => kv.1 == stop) = none := by
      rw [List.find?_eq_none]
      intro kv hmem hkv
      exact hany (List.any_eq_true.mpr ⟨kv, hmem, hkv⟩)
    by_cases hx : x = stop
    · subst hx
      simp [hnone, List.find?]
    · have : ((stop, [v]).1 == x) = false := by
        simp
        intro h
        exact hx h.symm
      simp only [List.find?, this]
      cases d.find? (fun kv => kv.1 == x) <;> simp [hx]

theorem keys_dictAppend {σ : Type} [DecidableEq σ] (d : List (σ × List ℚ))
    (stop : σ) (v : ℚ) :
    (dictAppend d stop v).map Prod.fst =
      if d.any (fun kv => kv.1 == stop) then d.map Prod.fst
      else d.map Prod.fst ++ [stop] := by
  unfold dictAppend
  by_cases hany : d.any (fun kv => kv.1 == stop) = true
  · simp only [hany, if_true, List.map_map]
    congr 1
    funext kv
    by_cases h : kv.1 = stop <;> simp [h]
  · simp only [hany]
    rw [if_neg (by simp : ¬(false = true)), if_neg (by simp : ¬(false = true))]
    simp

theorem nodupKeys_dictAppend {σ : Type} [DecidableEq σ] {d : List (σ × List ℚ)}
    (stop : σ) (v : ℚ) (h : (d.map Prod.fst).Nodup) :
    ((dictAppend d stop v).map Prod.fst).Nodup := by
  rw [keys_dictAppend]
  by_cases hany : d.any (fun kv => kv.1 == stop) = true
  · simpa [hany] using h
  · simp only [hany]
    rw [if_neg (by simp : ¬(false = true))]
    rw [List.nodup_append]
    refine ⟨h, List.nodup_singleton stop, ?_⟩
    intro a ha
    simp only [List.mem_singleton]
    intro hb
    subst hb
    rcases List.mem_map.mp ha with ⟨kv, hkv, hfst⟩
    exact hany (List.any_eq_true.mpr ⟨kv, hkv, by simp [hfst]⟩)

theorem dictFind_accumulateAux {σ : Type} [DecidableEq σ] (l : List (σ × ℚ)) :
    ∀ (s : ℚ) (d : List (σ × List ℚ)) (x : σ),
      dictFind (accumulateAux l s d) x =
        if (dictFind d x).isSome = true ∨ x ∈ l.map Prod.fst then
          some ((dictFind d x).getD [] ++ stopSumsFrom l s x)
        else none := by
  induction l with
  | nil =>
    intro s d x
    simp only [accumulateAux, stopSumsFrom, runningSums, List.filter_nil, List.map_nil,
      List.append_nil, List.not_mem_nil, or_false]
    cases h : dictFind d x <;> simp [h]
  | cons hd rest ih =>
    intro s d x
    obtain ⟨st, p⟩ := hd
    simp only [accumulateAux]
    rw [ih (s + p) (dictAppend d st (s + p)) x, dictFind_dictAppend]
    by_cases hx : x = st
    · subst hx
      simp only [if_pos rfl, Option.isSome_some, true_or, Option.getD_some, if_pos,
        List.map_cons, List.mem_cons, true_or]
      have : stopSumsFrom ((x, p) :: rest) s x = (s + p) :: stopSumsFrom rest (s + p) x := by
        simp [stopSumsFrom, runningSums]
      rw [this, List.append_assoc]
      simp
    · rw [if_neg hx]
      have hsums : stopSumsFrom ((st, p) :: rest) s x = stopSumsFrom rest (s + p) x := by
        simp only [stopSumsFrom, runningSums, List.filter_cons]
        have : ((st, s + p).1 == x) = false := by
          simp
          intro h
          exact hx h.symm
        simp [this]
      rw [hsums]
      have hmem : (x ∈ ((st, p) :: rest).map Prod.fst) ↔ (x ∈ rest.map Prod.fst) := by
        simp only [List.map_cons, List.mem_cons]
        constructor
        · rintro (h | h)
          · exact (hx h).elim
          · exact h
        · exact Or.inr
      rw [if_congr (Iff.or Iff.rfl hmem) rfl rfl]

theorem nodupKeys_accumulateAux {σ : Type} [DecidableEq σ] (l : List (σ × ℚ)) :
    ∀ (s : ℚ) (d : List (σ × List ℚ)), (d.map Prod.fst).Nodup →
      ((accumulateAux l s d).map Prod.fst).Nodup := by
  induction l with
  | nil => intro s d h; simpa [accumulateAux] using h
  | cons hd rest ih =>
    intro s d h
    obtain ⟨st, p⟩ := hd
    exact ih (s + p) _ (nodupKeys_dictAppend st (s + p) h)

theorem map_fst_runningSums {σ : Type} (l : List (σ × ℚ)) :
    ∀ s : ℚ, (runningSums l s).map Prod.fst = l.map Prod.fst := by
  induction l with
  | nil => intro s; rfl
  | cons hd rest ih =>
    intro s
    obtain ⟨st, p⟩ := hd
    simp [runningSums, ih]

theorem stopSumsFrom_eq_nil_of_not_mem {σ : Type} [DecidableEq σ] {l : List (σ × ℚ)}
    {x : σ} (h : x ∉ l.map Prod.fst) (s : ℚ) : stopSumsFrom l s x = [] := by
  unfold stopSumsFrom
  have : (runningSums l s).filter (fun kv => kv.1 == x) = [] := by
    rw [List.filter_eq_nil_iff]
    intro kv hkv
    simp only [beq_iff_eq]
    intro hfst
    apply h
    rw [← map_fst_runningSums l s]
    exact List.mem_map.mpr ⟨kv, hkv, hfst⟩
  rw [this]
  rfl

theorem dictFind_windowFold {σ : Type} [DecidableEq σ] (rows : List (List (σ × ℚ))) :
    ∀ (d : List (σ × List ℚ)) (x : σ),
      dictFind (rows.foldl (fun d r => accumulateAux r 0 d) d) x =
        if (dictFind d x).isSome = true ∨ ∃ r ∈ rows, x ∈ r.map Prod.fst then
          some ((dictFind d x).getD [] ++ rows.flatMap (fun r => stopSumsFrom r 0 x))
        else none := by
  induction rows with
  | nil =>
    intro d x
    simp only [List.foldl_nil, List.flatMap_nil, List.append_nil, List.not_mem_nil,
      false_and, exists_false, or_false]
    cases h : dictFind d x <;> simp [h]
  | cons r rest ih =>
    intro d x
    simp only [List.foldl_cons]
    rw [ih (accumulateAux r 0 d) x, dictFind_accumulateAux]
    by_cases hcond : (dictFind d x).isSome = true ∨ x ∈ r.map Prod.fst
    · rw [if_pos hcond]
      rw [if_pos (Or.inl (by simp) :
        (some ((dictFind d x).getD [] ++ stopSumsFrom r 0 x)).isSome = true ∨
          ∃ r₀ ∈ rest, x ∈ r₀.map Prod.fst)]
      rw [if_pos (by
        rcases hcond with h | h
        · exact Or.inl h
        · exact Or.inr ⟨r, List.mem_cons_self r rest, h⟩)]
      simp [List.flatMap_cons, List.append_assoc]
    · rw [if_neg hcond]
      push_neg at hcond
      obtain ⟨hns, hnm⟩ := hcond
      have hdx : dictFind d x = none := by
        cases h : dictFind d x with
        | none => rfl
        | some l₀ => exact absurd (by simp [h] : (dictFind d x).isSome = true) hns
      by_cases hrest : ∃ r₀ ∈ rest, x ∈ r₀.map Prod.fst
      · rw [if_pos (Or.inr hrest :
          (none : Option (List ℚ)).isSome = true ∨ ∃ r₀ ∈ rest, x ∈ r₀.map Prod.fst)]
        rw [if_pos (Or.inr (by
          obtain ⟨r₀, h₁, h₂⟩ := hrest
          exact ⟨r₀, List.mem_cons_of_mem r h₁, h₂⟩) :
          (dictFind d x).isSome = true ∨ ∃ r₀ ∈ r :: rest, x ∈ r₀.map Prod.fst)]
        rw [hdx]
        simp [List.flatMap_cons, stopSumsFrom_eq_nil_of_not_mem hnm]
      · rw [if_neg (by
          rintro (h | h)
          · simp at h
          · exact hrest h), if_neg (by
          rintro (h | ⟨r₀, hr₀, hx⟩)
          · rw [hdx] at h; simp at h
          · rcases List.mem_cons.mp hr₀ with h | h
            · subst h; exact hnm hx
            · exact hrest ⟨r₀, h, hx⟩)]

theorem nodupKeys_windowFold {σ : Type} [DecidableEq σ] (rows : List (List (σ × ℚ))) :
    ∀ d : List (σ × List ℚ), (d.map Prod.fst).Nodup →
      (((rows.foldl (fun d r => accumulateAux r 0 d) d)).map Prod.fst).Nodup := by
  induction rows with
  | nil => intro d h; simpa using h
  | cons r rest ih =>
    intro d h
    exact ih _ (nodupKeys_accumulateAux r 0 d h)

theorem lookupEta_finalize {σ : Type} [DecidableEq σ] (n : ℕ) (x : σ) :
    ∀ d : List (σ × List ℚ), (d.map Prod.fst).Nodup →
      lookupEta (finalizePredictions d n) x =
        (match dictFind d x with
         | some l => if l.length = n then some (percentile25 l) else none
         | none => none) := by
  intro d
  induction d with
  | nil => intro _; rfl
  | cons kv rest ih =>
    intro hnd
    obtain ⟨k, l⟩ := kv
    simp only [List.map_cons, List.nodup_cons] at hnd
    obtain ⟨hk, hrest⟩ := hnd
    by_cases hx : x = k
    · subst hx
      have hfind : dictFind ((x, l) :: rest) x = some l := by
        simp [dictFind, List.find?_cons]
      rw [hfind]
      by_cases hl : l.length = n
      · have : finalizePredictions ((x, l) :: rest) n =
            (x, percentile25 l) :: finalizePredictions rest n := by
          simp [finalizePredictions, List.filter_cons, hl]
        rw [this]
        simp [lookupEta, List.find?_cons, hl]
      · have hstep : finalizePredictions ((x, l) :: rest) n = finalizePredictions rest n := by
          simp [finalizePredictions, List.filter_cons, hl]
        rw [hstep, ih hrest]
        have : dictFind rest x = none := by
          unfold dictFind
          rw [List.find?_eq_none.mpr]
          · rfl
          · intro kv hkv
            simp only [beq_iff_eq]
            intro hfst
            exact hk (List.mem_map.mpr ⟨kv, hkv, hfst⟩)
        rw [this]
        simp [hl]
    · have hkx : (k == x) = false := by
        rw [beq_eq_false_iff_ne]
        exact fun h => hx h.symm
      have hfind : dictFind ((k, l) :: rest) x = dictFind rest x := by
        simp [dictFind, List.find?_cons, hkx]
      rw [hfind, ← ih hrest]
      by_cases hl : l.length = n
      · have hstep : finalizePredictions ((k, l) :: rest) n =
            (k, percentile25 l) :: finalizePredictions rest n := by
          simp [finalizePredictions, List.filter_cons, hl]
        rw [hstep]
        simp [lookupEta, List.find?_cons, hkx]
      · have hstep : finalizePredictions ((k, l) :: rest) n = finalizePredictions rest n := by
          simp [finalizePredictions, List.filter_cons, hl]
        rw [hstep]

theorem length_stopSumsFrom {σ : Type} [DecidableEq σ] (l : List (σ × ℚ)) (s : ℚ) (x : σ) :
    (stopSumsFrom l s x).length = (l.map Prod.fst).count x := by
  unfold stopSumsFrom
  rw [List.length_map, ← List.countP_eq_length_filter, ← map_fst_runningSums l s,
    List.count, List.countP_map]
  rfl

theorem sum_eq_length_iff_all_one (cs : List ℕ) (h : ∀ c ∈ cs, c ≤ 1) :
    cs.sum = cs.length ↔ ∀ c ∈ cs, c = 1 := by
  induction cs with
  | nil => simp
  | cons c rest ih =>
    have hc := h c (List.mem_cons_self _ _)
    have hrest : ∀ y ∈ rest, y ≤ 1 := fun y hy => h y (List.mem_cons_of_mem _ hy)
    have hsum_le : rest.sum ≤ rest.length := by
      calc rest.sum ≤ rest.length • 1 := List.sum_le_card_nsmul rest 1 hrest
      _ = rest.length := by simp
    constructor
    · intro heq
      simp only [List.sum_cons, List.length_cons] at heq
      have hc1 : c = 1 ∧ rest.sum = rest.length := by omega
      intro y hy
      rcases List.mem_cons.mp hy with rfl | hy
      · exact hc1.1
      · exact (ih hrest).mp hc1.2 y hy
    · intro hall
      simp only [List.sum_cons, List.length_cons]
      have hr : rest.sum = rest.length :=
        (ih hrest).mpr (fun y hy => hall y (List.mem_cons_of_mem _ hy))
      rw [hr, hall c (List.mem_cons_self _ _)]
      omega

/-- **C3.** For every window of `M` fixes fed to the aggregator (each fix
contributing its list of `(next_stop, segment_time)` rows, with no stop
repeated within one fix's rows), the published output contains exactly those
stops that received an accumulator entry from every one of the `M` fixes, and
for each surviving stop the published ETA equals the 25th percentile of that
stop's `M` accumulated cumulative segment-time sums. -/
theorem aggregator_window_exact {σ : Type} [DecidableEq σ]
    (rows : List (List (σ × ℚ))) (M : ℕ) (hM : M = rows.length) (hpos : 1 ≤ M)
    (hnd : ∀ r ∈ rows, (r.map Prod.fst).Nodup) (stop : σ) :
    lookupEta (aggregate rows) stop =
      if ∀ r ∈ rows, stop ∈ r.map Prod.fst then
        some (percentile25 (rows.flatMap (fun r => stopSumsFrom r 0 stop)))
      else none := by
  subst hM
  unfold aggregate windowAccumulate
  rw [lookupEta_finalize rows.length stop _ (nodupKeys_windowFold rows [] (by simp)),
    dictFind_windowFold rows [] stop]
  have hnone : dictFind ([] : List (σ × List ℚ)) stop = none := rfl
  rw [hnone]
  simp only [Option.isSome_none, Bool.false_eq_true, false_or, Option.getD_none,
    List.nil_append]
  by_cases hall : ∀ r ∈ rows, stop ∈ r.map Prod.fst
  · rw [if_pos hall]
    have hex : ∃ r ∈ rows, stop ∈ r.map Prod.fst := by
      cases rows with
      | nil => simp at hpos
      | cons r rest => exact ⟨r, List.mem_cons_self _ _, hall r (List.mem_cons_self _ _)⟩
    rw [if_pos hex]
    have hlen : (rows.flatMap (fun r => stopSumsFrom r 0 stop)).length = rows.length := by
      rw [List.length_flatMap]
      have hone : List.map (List.length ∘ fun r => stopSumsFrom r 0 stop) rows =
          List.map (fun _ => 1) rows := by
        apply List.map_congr_left
        intro r hr
        simp only [Function.comp]
        rw [length_stopSumsFrom]
        have h1 : (r.map Prod.fst).count stop ≤ 1 :=
          List.nodup_iff_count_le_one.mp (hnd r hr) stop
        have h2 : 0 < (r.map Prod.fst).count stop := List.count_pos_iff.mpr (hall r hr)
        omega
      rw [hone]
      simp
    simp [hlen]
  · rw [if_neg hall]
    by_cases hex : ∃ r ∈ rows, stop ∈ r.map Prod.fst
    · rw [if_pos hex]
      have hne : (rows.flatMap (fun r => stopSumsFrom r 0 stop)).length ≠ rows.length := by
        rw [List.length_flatMap]
        intro heq
        push_neg at hall
        obtain ⟨r₀, hr₀, hstop⟩ := hall
        have hle : ∀ c ∈ List.map (List.length ∘ fun r => stopSumsFrom r 0 stop) rows,
            c ≤ 1 := by
          intro c hc
          rcases List.mem_map.mp hc with ⟨r, hr, rfl⟩
          simp only [Function.comp]
          rw [length_stopSumsFrom]
          exact List.nodup_iff_count_le_one.mp (hnd r hr) stop
        have hall1 := (sum_eq_length_iff_all_one _ hle).mp (by rw [heq]; simp)
        have h₀ := hall1 _ (List.mem_map_of_mem
          (List.length ∘ fun r => stopSumsFrom r 0 stop) hr₀)
        simp only [Function.comp] at h₀
        rw [length_stopSumsFrom, List.count_eq_zero_of_not_mem hstop] at h₀
        exact absurd h₀ (by norm_num)
      have hne2 : ¬(List.map (List.length ∘ fun r => stopSumsFrom r 0 stop) rows).sum =
          rows.length := by
        rw [← List.length_flatMap]
        exact hne
      simp [hne, hne2]
    · rw [if_neg hex]

/-- Witness for C3 at a concrete window of two fixes over stops `5` and `7`. -/
theorem aggregator_window_exact_witness :
    lookupEta (aggregate [[(5, 2), (7, 3)], [(5, 4), (7, 1)]]) 7 =
      if ∀ r ∈ [[((5 : ℕ), (2 : ℚ)), (7, 3)], [(5, 4), (7, 1)]], 7 ∈ r.map Prod.fst then
        some (percentile25
          ([[((5 : ℕ), (2 : ℚ)), (7, 3)], [(5, 4), (7, 1)]].flatMap
            (fun r => stopSumsFrom r 0 7)))
      else none :=
  aggregator_window_exact [[(5, 2), (7, 3)], [(5, 4), (7, 1)]] 2 (by decide)
    (by decide) (by decide) 7

/-- **C5.** Insertion purity: `next_stop_distance` conceptually inserts the
anchor coordinate into the trip's stored shape but leaves the stored geometry
unchanged after it returns (for every insertion index the source can produce,
i.e. any index within the shape). -/
theorem nextStopDistance_shape_unchanged (segDist : Coord → Coord → ℚ)
    (shape : List Coord) (insertIndex endIndex : ℕ) (anchor : Coord)
    (h : insertIndex ≤ shape.length) :
    ∃ d, nextStopDistance segDist shape insertIndex endIndex anchor = some (d, shape) := by
  refine ⟨segLoopSum segDist (pyInsert shape insertIndex anchor)
    (insertIndex + 1) (endIndex + 2), ?_⟩
  unfold nextStopDistance
  dsimp only
  rw [pyPop_pyInsert anchor shape insertIndex h]

/-- Witness for C5 at the docstring example shape with the anchor inserted at
index 2. -/
theorem nextStopDistance_shape_unchanged_witness :
    ∃ d, nextStopDistance (fun _ _ => 1) [(0, 0), (1, 1), (2, 2), (3, 3)] 2 2 (3/2, 3/2) =
      some (d, [(0, 0), (1, 1), (2, 2), (3, 3)]) :=
  nextStopDistance_shape_unchanged (fun _ _ => 1) [(0, 0), (1, 1), (2, 2), (3, 3)] 2 2
    (3/2, 3/2) (by decide)

/-- **C4.** Off-route gating: a fix is flagged on-route iff its distance to
the corridor polyline is at most 100 m, and the per-vehicle pipeline is
aborted with a `null` result exactly when the most recent fix is off-route. -/
theorem offroute_gating (Fix ρ : Type) (distToRoute : Fix → ℚ)
    (rest : List (Fix × ℚ × Bool) → Option ρ) (gps : List Fix) (f : Fix)
    (hlast : gps.getLast? = some f) :
    (onRouteThresh < distToRoute f → predictBus distToRoute rest gps = none) ∧
    (distToRoute f ≤ onRouteThresh →
      predictBus distToRoute rest gps = rest (determineFollowingRoute distToRoute gps)) ∧
    (∀ d : ℚ, followingRouteFlag d = true ↔ d ≤ 100) := by
  have hmap : (determineFollowingRoute distToRoute gps).getLast? =
      some (f, distToRoute f, followingRouteFlag (distToRoute f)) := by
    unfold determineFollowingRoute
    rw [List.getLast?_map, hlast]
    rfl
  refine ⟨?_, ?_, ?_⟩
  · intro hgt
    unfold predictBus
    dsimp only
    rw [hmap]
    have hflag : followingRouteFlag (distToRoute f) = false := by
      simp only [followingRouteFlag, decide_eq_false_iff_not, not_le]
      exact hgt
    simp [hflag]
  · intro hle
    unfold predictBus
    dsimp only
    rw [hmap]
    have hflag : followingRouteFlag (distToRoute f) = true := by
      simpa only [followingRouteFlag, decide_eq_true_eq] using hle
    simp [hflag]
  · intro d
    simp [followingRouteFlag, onRouteThresh]

/-- Witness for C4 on a single-fix vehicle whose fix is 150 m from its
corridor. -/
theorem offroute_gating_witness :
    (onRouteThresh < (fun _ : Unit => (150 : ℚ)) () →
      predictBus (fun _ : Unit => (150 : ℚ)) (fun _ => some (0 : ℕ)) [()] = none) ∧
    ((fun _ : Unit => (150 : ℚ)) () ≤ onRouteThresh →
      predictBus (fun _ : Unit => (150 : ℚ)) (fun _ => some (0 : ℕ)) [()] =
        (fun _ => some (0 : ℕ)) (determineFollowingRoute (fun _ : Unit => (150 : ℚ)) [()])) ∧
    (∀ d : ℚ, followingRouteFlag d = true ↔ d ≤ 100) :=
  offroute_gating Unit ℕ (fun _ => 150) (fun _ => some 0) [()] () rfl

/-! ## Trip determiner (`src/eta/trip_determiner.py`)

`TripDeterminer._determine_trip_helper` runs a windowed voter over the
chronologically ordered fixes.  The geometric measurements it consumes —
`_get_nearest_distance` (shapely nearest-point projection composed with the
equirectangular distance), the inter-fix ground distance, and `_first_passed`
(projection + `cKDTree` nearest-vertex query on `trip1`) — are bundled in
`VoterParams`, mirroring how the source injects them; the seven-way method
selection of `_choose_trip`, the queue handling and the mode commit of
`_get_most_common_trip` are embedded verbatim. -/

/-- The injected geometry and static context of one voter run:
`trip1`/`trip2` are the shape names of the corridor (`trip2 = none` for a
one-directional corridor); `d1 p`/`d2 p` are `_get_nearest_distance(p, trip1)`
and `_get_nearest_distance(p, trip2)` in meters; `gdist` is the
equirectangular ground distance in meters; `fp p q` is `_first_passed(p, q,
trip1, tree)` as (`first == "A"`, `idxs`). -/
structure VoterParams (Pt τ : Type) where
  trip1 : τ
  trip2 : Option τ
  d1 : Pt → ℚ
  d2 : Pt → ℚ
  gdist : Pt → Pt → ℚ
  fp : Pt → Pt → Bool × ℕ × ℕ

/-- Python's `abs` on a float value. -/
def absQ (x : ℚ) : ℚ := if x < 0 then -x else x

theorem absQ_eq_abs (x : ℚ) : absQ x = |x| := by
  unfold absQ
  by_cases h : x < 0
  · rw [if_pos h, abs_of_neg h]
  · rw [if_neg h, abs_of_nonneg (not_lt.mp h)]

/-- `TripDeterminer._choose_trip`: returns the chosen trip (`none` models the
Python `None` emitted by the skip method) and the method number. -/
def chooseTrip {Pt τ : Type} (P : VoterParams Pt τ) (cur : Pt) (prev : Option Pt) :
    Option τ × ℕ :=
  match P.trip2, prev with
  | some t2, none =>
      (if P.d1 cur < P.d2 cur then some P.trip1 else some t2, 1)
  | some t2, some p =>
      if 20 < absQ (P.d1 cur - P.d2 cur) then
        (if P.d1 cur < P.d2 cur then some P.trip1 else some t2, 2)
      else if P.gdist p cur ≤ 15 then
        (none, 3)
      else
        let fpr := P.fp p cur
        if fpr.2.1 ≤ 1 then (some P.trip1, 4)
        else if fpr.2.2 ≤ 1 then (some t2, 5)
        else (if fpr.1 then some P.trip1 else some t2, 6)
  | none, none => (some P.trip1, 2)
  | none, some p =>
      if P.gdist p cur ≤ 15 then (none, 3)
      else (some P.trip1, 7)

/-- `Counter(queue_list).most_common(1)[0][0]`: the element of maximal
multiplicity, ties broken by first occurrence (Python's `Counter` preserves
insertion order and `sorted` is stable). -/
def modeOf {α : Type} [DecidableEq α] (l : List α) (dflt : α) : α :=
  (l.foldl (fun best y =>
    match best with
    | none => some y
    | some b => if l.count b < l.count y then some y else some b) none).getD dflt

/-- `TripDeterminer._get_most_common_trip`: on the queue contents after the
`put`, return the committed trip and the queue contents after the possible
`queueK.get()` eviction (the queue is FIFO: head = oldest). -/
def getMostCommonTrip {τ : Type} [DecidableEq τ] (K : ℕ) (queueList : List (Option τ))
    (dflt : Option τ) : Option τ × List (Option τ) :=
  if queueList.length = 1 then (dflt, queueList)
  else
    let m := modeOf queueList dflt
    if queueList.length = K then (m, queueList.tail) else (m, queueList)

/-- The per-fix state of `_determine_trip_helper`: the voting queue (front =
oldest), `previous_point`, and the list of committed trips. -/
structure VoterState (Pt τ : Type) where
  queueK : List (Option τ)
  previousPoint : Option Pt
  resultsTrip : List (Option τ)
deriving DecidableEq

/-- One iteration of the `for index, row in gps_data.iterrows()` loop of
`_determine_trip_helper`.  `none` models the `IndexError` of
`results_trip[-1]` on an empty list in the skip branch. -/
def voterStep {Pt τ : Type} [DecidableEq τ] (P : VoterParams Pt τ) (K : ℕ)
    (st : VoterState Pt τ) (row : Pt) : Option (VoterState Pt τ) :=
  let c := chooseTrip P row st.previousPoint
  if c.2 ≠ 3 then
    let q1 := st.queueK ++ [c.1]
    let r := getMostCommonTrip K q1 c.1
    some ⟨r.2, some row, st.resultsTrip ++ [r.1]⟩
  else
    match st.resultsTrip.getLast? with
    | some t => some ⟨st.queueK, st.previousPoint, st.resultsTrip ++ [t]⟩
    | none => none

/-- `_determine_trip_helper` over a chronologically ordered fix list, from the
initial state (empty queue, no previous point, no commits). -/
def runVoter {Pt τ : Type} [DecidableEq τ] (P : VoterParams Pt τ) (K : ℕ)
    (rows : List Pt) : Option (VoterState Pt τ) :=
  rows.foldlM (voterStep P K) ⟨[], none, []⟩

theorem getMostCommonTrip_len {τ : Type} [DecidableEq τ] (K : ℕ) (hK : 2 ≤ K)
    (q : List (Option τ)) (d : Option τ) (hq : q.length ≤ K) :
    (getMostCommonTrip K q d).2.length ≤ K - 1 := by
  unfold getMostCommonTrip
  by_cases h1 : q.length = 1
  · simp only [h1, if_pos]
    omega
  · rw [if_neg h1]
    by_cases hk : q.length = K
    · simp only [hk, if_pos]
      simp [List.length_tail, hk]
    · simp only [if_neg hk]
      omega

theorem voterStep_queue_len {Pt τ : Type} [DecidableEq τ] (P : VoterParams Pt τ)
    (K : ℕ) (hK : 2 ≤ K) (st st' : VoterState Pt τ) (row : Pt)
    (hinv : st.queueK.length ≤ K - 1) (hstep : voterStep P K st row = some st') :
    st'.queueK.length ≤ K - 1 := by
  unfold voterStep at hstep
  dsimp only at hstep
  by_cases h3 : (chooseTrip P row st.previousPoint).2 ≠ 3
  · rw [if_pos h3] at hstep
    obtain rfl := Option.some.inj hstep
    exact getMostCommonTrip_len K hK _ _ (by simp; omega)
  · rw [if_neg h3] at hstep
    cases hlast : st.resultsTrip.getLast? with
    | none => rw [hlast] at hstep; exact absurd hstep (by simp)
    | some t =>
      rw [hlast] at hstep
      obtain rfl := Option.some.inj hstep
      exact hinv

theorem foldl_voter_queue_len {Pt τ : Type} [DecidableEq τ] (P : VoterParams Pt τ)
    (K : ℕ) (hK : 2 ≤ K) :
    ∀ (l : List Pt) (st₀ : VoterState Pt τ), st₀.queueK.length ≤ K - 1 →
      ∀ st, List.foldlM (voterStep P K) st₀ l = some st → st.queueK.length ≤ K - 1 := by
  intro l
  induction l with
  | nil =>
    intro st₀ h st hrun
    rw [List.foldlM_nil] at hrun
    obtain rfl := Option.some.inj hrun
    exact h
  | cons x xs ih =>
    intro st₀ h st hrun
    rw [List.foldlM_cons] at hrun
    cases hstep : voterStep P K st₀ x with
    | none => rw [hstep] at hrun; exact absurd hrun (by simp)
    | some st₁ =>
      rw [hstep] at hrun
      exact ih st₁ (voterStep_queue_len P K hK st₀ st₁ x h hstep) st hrun

/-- **C9.** Voter loop invariant: after processing any prefix of the fix
sequence the voting queue holds at most `K − 1` committed choices, so the
push in the next non-skip iteration finds a non-full queue (`put` never
blocks) and the committed mode is taken over at most `K` elements. -/
theorem voter_queue_invariant {Pt τ : Type} [DecidableEq τ] (P : VoterParams Pt τ)
    (K : ℕ) (hK : 2 ≤ K) (pre : List Pt) (st : VoterState Pt τ)
    (hrun : runVoter P K pre = some st) :
    st.queueK.length ≤ K - 1 ∧ st.queueK.length + 1 ≤ K := by
  have h := foldl_voter_queue_len P K hK pre ⟨[], none, []⟩ (by simp) st hrun
  exact ⟨h, by omega⟩

/-- A one-directional corridor whose fixes are always far apart: geometry for
the C9 witness run. -/
def voterFarP : VoterParams ℕ ℕ :=
  ⟨1, none, fun _ => 0, fun _ => 0, fun _ _ => 100, fun _ _ => (true, 5, 5)⟩

/-- The voter state reached by `voterFarP` on the two-fix run `[0, 1]`. -/
def voterFarState : VoterState ℕ ℕ :=
  ⟨[some 1, some 1], some 1, [some 1, some 1]⟩

/-- Witness for C9: a two-fix run on a one-directional corridor at `K = 5`. -/
theorem voter_queue_invariant_witness :
    voterFarState.queueK.length ≤ 5 - 1 ∧ voterFarState.queueK.length + 1 ≤ 5 :=
  voter_queue_invariant voterFarP 5 (by decide) [0, 1] voterFarState (by decide)

theorem chooseTrip_method_three_prev {Pt τ : Type} (P : VoterParams Pt τ) (cur : Pt)
    (prev : Option Pt) (h : (chooseTrip P cur prev).2 = 3) : prev.isSome = true := by
  cases prev with
  | some p => rfl
  | none =>
    exfalso
    unfold chooseTrip at h
    cases ht : P.trip2 with
    | some t2 => rw [ht] at h; simp at h
    | none => rw [ht] at h; simp at h

theorem voterStep_safe {Pt τ : Type} [DecidableEq τ] (P : VoterParams Pt τ) (K : ℕ)
    (st : VoterState Pt τ) (row : Pt)
    (hinv : st.previousPoint.isSome = true → st.resultsTrip ≠ []) :
    ∃ st', voterStep P K st row = some st' ∧
      (st'.previousPoint.isSome = true → st'.resultsTrip ≠ []) := by
  unfold voterStep
  dsimp only
  by_cases h3 : (chooseTrip P row st.previousPoint).2 ≠ 3
  · rw [if_pos h3]
    exact ⟨_, rfl, fun _ => by simp⟩
  · rw [if_neg h3]
    have hprev : st.previousPoint.isSome = true :=
      chooseTrip_method_three_prev P row st.previousPoint (by simpa using h3)
    have hne : st.resultsTrip ≠ [] := hinv hprev
    cases hlast : st.resultsTrip.getLast? with
    | none => exact absurd (by simpa using hlast) (by simpa using hne)
    | some t => exact ⟨_, rfl, fun _ => by simp⟩

theorem foldl_voter_safe {Pt τ : Type} [DecidableEq τ] (P : VoterParams Pt τ) (K : ℕ) :
    ∀ (l : List Pt) (st₀ : VoterState Pt τ),
      (st₀.previousPoint.isSome = true → st₀.resultsTrip ≠ []) →
      ∃ st, List.foldlM (voterStep P K) st₀ l = some st ∧
        (st.previousPoint.isSome = true → st.resultsTrip ≠ []) := by
  intro l
  induction l with
  | nil =>
    intro st₀ h
    exact ⟨st₀, by rw [List.foldlM_nil]; rfl, h⟩
  | cons x xs ih =>
    intro st₀ h
    obtain ⟨st₁, hstep, h₁⟩ := voterStep_safe P K st₀ x h
    obtain ⟨st, hrun, hst⟩ := ih st₁ h₁
    refine ⟨st, ?_, hst⟩
    rw [List.foldlM_cons, hstep]
    exact hrun

/-- **C10.** Whenever the voter selects the skip method (method 3) the list of
already-committed trips is non-empty, so `results_trip[-1]` is well-defined:
the whole run never hits the empty-list indexing error, for every fix
sequence and every geometry. -/
theorem voter_skip_index_safe {Pt τ : Type} [DecidableEq τ] (P : VoterParams Pt τ)
    (K : ℕ) (rows : List Pt) : (runVoter P K rows).isSome = true := by
  obtain ⟨st, hrun, _⟩ := foldl_voter_safe P K rows ⟨[], none, []⟩ (by simp)
  unfold runVoter
  rw [hrun]
  rfl

/-- **C2 (amended).** The skip rule as the code implements it: when the
ground distance from the previous *non-skipped* fix to the current fix is at
most 15 m and the clear-direction test does not fire first (one directional
trip, or `|d(cur,T1) − d(cur,T2)| ≤ 20 m`), the current fix's committed trip
equals the last committed trip and neither the previous-fix state nor the
voting window is updated. -/
theorem skip_rule_amended {Pt τ : Type} [DecidableEq τ] (P : VoterParams Pt τ) (K : ℕ)
    (st : VoterState Pt τ) (cur p : Pt) (t : Option τ)
    (hprev : st.previousPoint = some p)
    (hnear : P.gdist p cur ≤ 15)
    (htie : ∀ t2, P.trip2 = some t2 → absQ (P.d1 cur - P.d2 cur) ≤ 20)
    (hlast : st.resultsTrip.getLast? = some t) :
    voterStep P K st cur = some ⟨st.queueK, st.previousPoint, st.resultsTrip ++ [t]⟩ := by
  have hc : chooseTrip P cur st.previousPoint = (none, 3) := by
    rw [hprev]
    unfold chooseTrip
    cases ht : P.trip2 with
    | some t2 =>
      dsimp only
      rw [if_neg (not_lt.mpr (htie t2 ht)), if_pos hnear]
    | none =>
      dsimp only
      rw [if_pos hnear]
  unfold voterStep
  dsimp only
  rw [hc]
  rw [if_neg (by simp)]
  rw [hlast]

/-- A one-directional corridor whose fixes are always near the previous one:
geometry for the amended-C2 witness. -/
def skipNearP : VoterParams ℕ ℕ :=
  ⟨1, none, fun _ => 0, fun _ => 0, fun _ _ => 10, fun _ _ => (true, 5, 5)⟩

/-- Witness for the amended C2: a second fix 10 m from the previous one is
committed to the previous trip with queue and previous point untouched. -/
theorem skip_rule_amended_witness :
    voterStep skipNearP 5 ⟨[some 1], some 0, [some 1]⟩ 1 =
      some ⟨[some 1], some 0, [some 1, some 1]⟩ :=
  skip_rule_amended skipNearP 5 ⟨[some 1], some 0, [some 1]⟩ 1 0 (some 1) rfl
    (by decide) (fun t2 h => Option.noConfusion h) rfl

/-- A two-directional corridor where fixes `1` and `2` are 11 m apart but fix
`2` is clearly nearer to `trip2` (distance gap `> 20 m`), so the
clear-direction method fires before the skip test: geometry for the C2
counterexample. -/
def skipCexP : VoterParams ℕ ℕ :=
  ⟨1, some 2,
    fun p => if p = 0 then 45 else if p = 1 then 78 else 79,
    fun p => if p = 0 then 67 else if p = 1 then 33 else 32,
    fun p q => if p = 1 then if q = 2 then 11 else 500 else 500,
    fun _ _ => (true, 5, 5)⟩

theorem skipCex_choose0 : chooseTrip skipCexP 0 none = (some 1, 1) := by
  unfold chooseTrip skipCexP
  norm_num

theorem skipCex_choose1 : chooseTrip skipCexP 1 (some 0) = (some 2, 2) := by
  unfold chooseTrip skipCexP
  norm_num [absQ]

theorem skipCex_choose2 : chooseTrip skipCexP 2 (some 1) = (some 2, 2) := by
  unfold chooseTrip skipCexP
  norm_num [absQ]

theorem skipCex_step1 :
    voterStep skipCexP 5 ⟨[], none, []⟩ 0 = some ⟨[some 1], some 0, [some 1]⟩ := by
  unfold voterStep
  dsimp only
  rw [skipCex_choose0]
  decide

theorem skipCex_step2 :
    voterStep skipCexP 5 ⟨[some 1], some 0, [some 1]⟩ 1 =
      some ⟨[some 1, some 2], some 1, [some 1, some 1]⟩ := by
  unfold voterStep
  dsimp only
  rw [skipCex_choose1]
  decide

theorem skipCex_step3 :
    voterStep skipCexP 5 ⟨[some 1, some 2], some 1, [some 1, some 1]⟩ 2 =
      some ⟨[some 1, some 2, some 2], some 2, [some 1, some 1, some 2]⟩ := by
  unfold voterStep
  dsimp only
  rw [skipCex_choose2]
  decide

/-- **C2 counterexample.** On the run `[0, 1, 2]` under `skipCexP`, fixes `1`
and `2` are 11 m ≤ 15 m apart (consecutive fixes), yet the committed trip
changes from `some 1` (position 1 of the results) to `some 2` (position 2),
the previous-fix state advances to fix `2`, and the voting window grows from
two to three entries: the claimed skip behaviour does not occur, because the
clear-direction method (`|d1 − d2| > 20`) is tested before the skip method. -/
theorem skip_rule_counterexample :
    skipCexP.gdist 1 2 ≤ 15 ∧
    runVoter skipCexP 5 [0, 1, 2] =
      some ⟨[some 1, some 2, some 2], some 2, [some 1, some 1, some 2]⟩ ∧
    (some 1 : Option ℕ) ≠ some 2 := by
  refine ⟨by norm_num [skipCexP], ?_, by decide⟩
  unfold runVoter
  rw [List.foldlM_cons, skipCex_step1]
  show (List.foldlM (voterStep skipCexP 5) ⟨[some 1], some 0, [some 1]⟩ [1, 2] :
    Option (VoterState ℕ ℕ)) = _
  rw [List.foldlM_cons, skipCex_step2]
  show (List.foldlM (voterStep skipCexP 5) ⟨[some 1, some 2], some 1, [some 1, some 1]⟩ [2] :
    Option (VoterState ℕ ℕ)) = _
  rw [List.foldlM_cons, skipCex_step3]
  rfl

/-! ## Virtual-row generation (`src/eta/eta_predictor.py`)

`ETAPredictor.predict_eta` resolves `last_stop = gps.loc[0, 'prev_stop']`
(the prev stop of the chronologically first fix of the window) once, and for
every fix `row` calls `_generate_modified_rows(gps, row, last_stop)`, which
walks up to three trip iterations (`j = 0, 1, 2`, following the `pair`
links), synthesizing one virtual row per downstream stop and halting when the
candidate next stop equals `last_stop` (`_create_temp_row` returns `None`).

The trip map entry mirrors the `map.pickle` structure
`{shape, status, pair, jarak}`; a `'.'` in `status` is `none`.  Dict and list
accesses that can raise (`list.index`, `stops[i]`, `shape[i]`, `jarak[s]`)
are modelled with `Option`. -/

/-- One entry of `self.map`: `shape` (list of coordinates), `status` (one
token per shape vertex: a stop id or `'.'`), `pair` (the opposite trip or a
falsy value), and `jarak` (per-stop `[_, cumulative next-stop distance]`,
second component). -/
structure TripMapEntry (Stop Trip : Type) where
  shape : List Coord
  status : List (Option Stop)
  pair : Option Trip
  jarak : Stop → Option ℚ

/-- The fields of a prediction row that `_create_temp_row` reads or writes;
the remaining columns of the pandas row are inherited unchanged and play no
role in the verified properties. -/
structure PredRow (Stop Trip : Type) where
  tripId : Trip
  prevStop : Stop
  nextStop : Stop
  latitude : ℚ
  longitude : ℚ
  nextStopDist : ℚ
deriving DecidableEq

/-- `ETAPredictor._get_stops`: the `(stop id, shape index)` pairs of the
non-`'.'` entries of `status`. -/
def getStops {Stop : Type} (status : List (Option Stop)) : List (Stop × ℕ) :=
  status.enum.filterMap (fun p => match p.2 with
    | some id => some (id, p.1)
    | none => none)

/-- The inner `for i in range(idx, n_stop)` loop of `_generate_modified_rows`
over the listed indices.  Returns the synthesized rows together with the
candidate stop at which `_create_temp_row` returned `None` (the halt), if
any; `none` models a raised `IndexError`/`KeyError`. -/
def innerLoop {Stop Trip : Type} [DecidableEq Stop] (sh : List Coord)
    (jar : Stop → Option ℚ) (real : PredRow Stop Trip) (stops : List (Stop × ℕ))
    (lastStop : Stop) (j : ℕ) :
    List ℕ → Option (List (PredRow Stop Trip) × Option Stop)
  | [] => some ([], none)
  | i :: rest =>
      if j = 0 ∧ i = 0 then
        (innerLoop sh jar real stops lastStop j rest).map
          (fun pr => (real :: pr.1, pr.2))
      else
        match stops.get? (i - 1), stops.get? i with
        | some cur, some nxt =>
            if nxt.1 = lastStop then some ([], some nxt.1)
            else
              match sh.get? cur.2, jar cur.1 with
              | some coordv, some dist =>
                  (innerLoop sh jar real stops lastStop j rest).map
                    (fun pr =>
                      ({ real with
                          prevStop := cur.1
                          nextStop := nxt.1
                          latitude := coordv.1
                          longitude := coordv.2
                          nextStopDist := dist } :: pr.1, pr.2))
              | _, _ => none
        | _, _ => none

/-- The `for j in range(3)` loop of `_generate_modified_rows`, threading the
current trip through `_update_trip` (`pair` when truthy).  A halt in the
inner loop returns the rows accumulated so far (`return modified_rows`);
exhausting `pair` breaks.  The halt stop is carried outward. -/
def genLoop {Stop Trip : Type} [DecidableEq Stop] (m : Trip → TripMapEntry Stop Trip)
    (real : PredRow Stop Trip) (origNext lastStop : Stop) :
    List ℕ → Trip → Option (List (PredRow Stop Trip) × Option Stop)
  | [], _ => some ([], none)
  | j :: js, trip =>
      let e := m trip
      let stops := getStops e.status
      let idx? := if j = 0 then (stops.map Prod.fst).indexOf? origNext else some 1
      match idx? with
      | none => none
      | some idx =>
          match innerLoop e.shape e.jarak real stops lastStop j
              (List.range' idx (stops.length - idx)) with
          | none => none
          | some (rs, some s) => some (rs, some s)
          | some (rs, none) =>
              match e.pair with
              | none => some (rs, none)
              | some t2 =>
                  (genLoop m real origNext lastStop js t2).map
                    (fun pr => (rs ++ pr.1, pr.2))

/-- `ETAPredictor._generate_modified_rows(gps, row, last_stop)`. -/
def generateModifiedRows {Stop Trip : Type} [DecidableEq Stop]
    (m : Trip → TripMapEntry Stop Trip) (row : PredRow Stop Trip) (lastStop : Stop) :
    Option (List (PredRow Stop Trip) × Option Stop) :=
  genLoop m row row.nextStop lastStop [0, 1, 2] row.tripId

/-- `Option`-valued sequential map, the per-fix loop of `predict_eta`. -/
def mapMOpt {α β : Type} (f : α → Option β) : List α → Option (List β)
  | [] => some []
  | x :: xs =>
      match f x, mapMOpt f xs with
      | some y, some ys => some (y :: ys)
      | _, _ => none

/-- The virtual-row generation of `ETAPredictor.predict_eta` across a window:
`last_stop = gps.loc[0, 'prev_stop']` (raising on an empty window), then one
`_generate_modified_rows` call per fix with that shared `last_stop`. -/
def predictWindowGen {Stop Trip : Type} [DecidableEq Stop]
    (m : Trip → TripMapEntry Stop Trip) (gps : List (PredRow Stop Trip)) :
    Option (List (List (PredRow Stop Trip) × Option Stop)) :=
  match gps with
  | [] => none
  | g0 :: _ => mapMOpt (fun row => generateModifiedRows m row g0.prevStop) gps

theorem innerLoop_rows {Stop Trip : Type} [DecidableEq Stop] (sh : List Coord)
    (jar : Stop → Option ℚ) (real : PredRow Stop Trip) (stops : List (Stop × ℕ))
    (lastStop : Stop) (j : ℕ) :
    ∀ (idxs : List ℕ) (out : List (PredRow Stop Trip) × Option Stop),
      innerLoop sh jar real stops lastStop j idxs = some out →
      (∀ s, out.2 = some s → s = lastStop) ∧
      (∀ r ∈ out.1, r = real ∨ r.nextStop ≠ lastStop) := by
  intro idxs
  induction idxs with
  | nil =>
    intro out h
    simp only [innerLoop] at h
    obtain rfl := Option.some.inj h
    exact ⟨by simp, by simp⟩
  | cons i rest ih =>
    intro out h
    simp only [innerLoop] at h
    split at h
    · cases hrec : innerLoop sh jar real stops lastStop j rest with
      | none => rw [hrec] at h; simp at h
      | some pr =>
        rw [hrec] at h
        simp only [Option.map_some'] at h
        obtain rfl := Option.some.inj h
        obtain ⟨ih1, ih2⟩ := ih pr hrec
        refine ⟨ih1, ?_⟩
        intro r hr
        rcases List.mem_cons.mp hr with rfl | hr
        · exact Or.inl rfl
        · exact ih2 r hr
    · split at h
      · split at h
        · obtain rfl := Option.some.inj h
          rename_i cur nxt heq hlast
          refine ⟨?_, by simp⟩
          intro s hs
          obtain rfl := Option.some.inj hs
          exact hlast
        · split at h
          · cases hrec : innerLoop sh jar real stops lastStop j rest with
            | none => rw [hrec] at h; simp at h
            | some pr =>
              rw [hrec] at h
              simp only [Option.map_some'] at h
              obtain rfl := Option.some.inj h
              obtain ⟨ih1, ih2⟩ := ih pr hrec
              refine ⟨ih1, ?_⟩
              intro r hr
              rcases List.mem_cons.mp hr with rfl | hr
              · exact Or.inr (by assumption)
              · exact ih2 r hr
          · exact absurd h (by simp)
      · exact absurd h (by simp)

theorem genLoop_rows {Stop Trip : Type} [DecidableEq Stop]
    (m : Trip → TripMapEntry Stop Trip) (real : PredRow Stop Trip)
    (origNext lastStop : Stop) :
    ∀ (js : List ℕ) (trip : Trip) (out : List (PredRow Stop Trip) × Option Stop),
      genLoop m real origNext lastStop js trip = some out →
      (∀ s, out.2 = some s → s = lastStop) ∧
      (∀ r ∈ out.1, r = real ∨ r.nextStop ≠ lastStop) := by
  intro js
  induction js with
  | nil =>
    intro trip out h
    simp only [genLoop] at h
    obtain rfl := Option.some.inj h
    exact ⟨by simp, by simp⟩
  | cons j js ih =>
    intro trip out h
    simp only [genLoop] at h
    split at h
    · exact absurd h (by simp)
    · split at h
      · exact absurd h (by simp)
      · rename_i idx hidx rs s hinner
        obtain rfl := Option.some.inj h
        exact innerLoop_rows _ _ real _ lastStop j _ _ hinner
      · rename_i idx hidx rs hinner
        obtain ⟨hin1, hin2⟩ := innerLoop_rows _ _ real _ lastStop j _ _ hinner
        split at h
        · obtain rfl := Option.some.inj h
          exact ⟨hin1, hin2⟩
        · rename_i t2 hpair
          cases hrec : genLoop m real origNext lastStop js t2 with
          | none => rw [hrec] at h; simp at h
          | some pr =>
            rw [hrec] at h
            simp only [Option.map_some'] at h
            obtain rfl := Option.some.inj h
            obtain ⟨ih1, ih2⟩ := ih t2 pr hrec
            refine ⟨ih1, ?_⟩
            intro r hr
            rcases List.mem_append.mp hr with hr | hr
            · exact hin2 r hr
            · exact ih2 r hr

theorem mapMOpt_mem {α β : Type} (f : α → Option β) :
    ∀ (l : List α) (out : List β), mapMOpt f l = some out →
      ∀ b ∈ out, ∃ a ∈ l, f a = some b := by
  intro l
  induction l with
  | nil =>
    intro out h b hb
    simp only [mapMOpt] at h
    obtain rfl := Option.some.inj h
    simp at hb
  | cons x xs ih =>
    intro out h b hb
    simp only [mapMOpt] at h
    split at h
    · rename_i y ys hy hys
      obtain rfl := Option.some.inj h
      rcases List.mem_cons.mp hb with rfl | hb
      · exact ⟨x, List.mem_cons_self _ _, hy⟩
      · obtain ⟨a, ha, hfa⟩ := ih ys hys b hb
        exact ⟨a, List.mem_cons_of_mem _ ha, hfa⟩
    · exact absurd h (by simp)

/-- **C1 (amended).** For every fix of the prediction window, the virtual-row
generator halts only at the `prev_stop` of the *first* fix of the window (the
shared `last_stop`), and that stop is never emitted as a synthesized virtual
row (the only row whose `next_stop` may equal it is a fix's own unmodified
row). -/
theorem lap_closure_amended {Stop Trip : Type} [DecidableEq Stop] [DecidableEq Trip]
    (m : Trip → TripMapEntry Stop Trip) (gps : List (PredRow Stop Trip))
    (g0 : PredRow Stop Trip) (hg0 : gps.head? = some g0)
    (out : List (List (PredRow Stop Trip) × Option Stop))
    (h : predictWindowGen m gps = some out)
    (pr : List (PredRow Stop Trip) × Option Stop) (hpr : pr ∈ out) :
    (∀ s, pr.2 = some s → s = g0.prevStop) ∧
    (∀ r ∈ pr.1, (∃ g ∈ gps, r = g) ∨ r.nextStop ≠ g0.prevStop) := by
  cases gps with
  | nil => simp at hg0
  | cons a rest =>
    have ha : a = g0 := by simpa using hg0
    subst ha
    unfold predictWindowGen at h
    obtain ⟨g, hg, hgen⟩ := mapMOpt_mem _ _ _ h pr hpr
    unfold generateModifiedRows at hgen
    obtain ⟨h1, h2⟩ := genLoop_rows m g g.nextStop a.prevStop [0, 1, 2] g.tripId pr hgen
    refine ⟨h1, ?_⟩
    intro r hr
    rcases h2 r hr with rfl | hne
    · exact Or.inl ⟨r, hg, rfl⟩
    · exact Or.inr hne

/-- Trip map for the C1 concrete runs: trip `0` has five stops `0..4` at
shape vertices `0..4` and pair trip `1`; trip `1` has stops `10, 11` and
pairs back to trip `0` (a 2-cycle). -/
def lapTmap : ℕ → TripMapEntry ℕ ℕ := fun t =>
  if t = 0 then
    ⟨[(0, 0), (1, 1), (2, 2), (3, 3), (4, 4)],
     [some 0, some 1, some 2, some 3, some 4], some 1, fun _ => some 1⟩
  else
    ⟨[(9, 9), (8, 8)], [some 10, some 11], some 0, fun _ => some 1⟩

/-- First fix of the C1 window: between stop 1 and stop 2 of trip 0. -/
def lapF0 : PredRow ℕ ℕ := ⟨0, 1, 2, 0, 0, 0⟩

/-- Second fix of the C1 window: between stop 2 and stop 3 of trip 0; its own
`prev_stop` is 2, while the window's first fix has `prev_stop` 1. -/
def lapF1 : PredRow ℕ ℕ := ⟨0, 2, 3, 0, 0, 0⟩

/-- The generator output for `lapF1` within the window `[lapF0, lapF1]`. -/
def lapRows1 : List (PredRow ℕ ℕ) × Option ℕ :=
  ([⟨0, 2, 3, 2, 2, 1⟩, ⟨0, 3, 4, 3, 3, 1⟩, ⟨0, 10, 11, 9, 9, 1⟩], some 1)

/-- The full generator output for the window `[lapF0, lapF1]`. -/
def lapOut : List (List (PredRow ℕ ℕ) × Option ℕ) :=
  [([⟨0, 1, 2, 1, 1, 1⟩, ⟨0, 2, 3, 2, 2, 1⟩, ⟨0, 3, 4, 3, 3, 1⟩, ⟨0, 10, 11, 9, 9, 1⟩],
    some 1), lapRows1]

/-- **C1 counterexample.** In the window `[lapF0, lapF1]` the virtual-row
generator run for the second fix `lapF1` halts at stop `1` — the `prev_stop`
resolved for the window's *first* fix — even though `lapF1`'s own original
`prev_stop` is `2`: the halt condition compares against
`gps.loc[0, 'prev_stop']`, not against each fix's own `prev_stop`. -/
theorem lap_closure_counterexample :
    predictWindowGen lapTmap [lapF0, lapF1] = some lapOut ∧
    lapRows1.2 = some 1 ∧ lapF1.prevStop = 2 ∧ (1 : ℕ) ≠ 2 := by
  refine ⟨by decide, by decide, by decide, by decide⟩

/-- Witness for the amended C1 at the concrete window `[lapF0, lapF1]`,
instantiated at the second fix's generator output. -/
theorem lap_closure_amended_witness :
    (∀ s, lapRows1.2 = some s → s = lapF0.prevStop) ∧
    (∀ r ∈ lapRows1.1, (∃ g ∈ [lapF0, lapF1], r = g) ∨ r.nextStop ≠ lapF0.prevStop) :=
  lap_closure_amended lapTmap [lapF0, lapF1] lapF0 rfl lapOut (by decide) lapRows1
    (by decide)

/-! ## Fix preprocessor (`src/eta/data_processor.py`)

`DataPreprocessor.preprocess_gps_data` drops the `'color'` column (pandas
raises `KeyError` when it is absent), parses `gpsdatetime`, derives
day-of-week and hour-of-day, and sorts ascending by timestamp.
`DataPreprocessor.categorize_stop` writes a `'categorized_stop'` column into
`self.stop_mean_eta` (the table held by the preprocessor) before mapping the
batch. -/

/-- One GPS row as `preprocess_gps_data` sees it: the parsed timestamp, the
derived `day`/`hour` columns (`none` before derivation), and the remaining
columns abstracted as an opaque payload. -/
structure GpsRow where
  gpsdatetime : ℤ
  day : Option ℤ
  hour : Option ℤ
  payload : ℕ
deriving DecidableEq

/-- A per-vehicle batch: whether the `'color'` column is present, and the
rows. -/
structure GpsBatch where
  hasColor : Bool
  rows : List GpsRow
deriving DecidableEq

/-- The per-row derivation of `preprocess_gps_data`:
`df['day'] = dt.dayofweek; df['hour'] = dt.hour` (the pandas datetime
accessors are the injected `dayOf`/`hourOf`). -/
def addTimeParts (dayOf hourOf : ℤ → ℤ) (r : GpsRow) : GpsRow :=
  { r with day := some (dayOf r.gpsdatetime), hour := some (hourOf r.gpsdatetime) }

/-- The parse/derive/sort portion of `preprocess_gps_data` (everything except
the `'color'` drop): derive `day`/`hour` and sort ascending by timestamp
(`sort_values(by='gpsdatetime').reset_index(drop=True)`). -/
def coreTransform (dayOf hourOf : ℤ → ℤ) (rows : List GpsRow) : List GpsRow :=
  (rows.map (addTimeParts dayOf hourOf)).mergeSort
    (fun a b => a.gpsdatetime ≤ b.gpsdatetime)

/-- `DataPreprocessor.preprocess_gps_data`: `df.drop(['color'], axis=1)`
(modelled `none` when the column is absent, as the drop raises `KeyError`),
then the core transform. -/
def preprocessGpsData (dayOf hourOf : ℤ → ℤ) (b : GpsBatch) : Option GpsBatch :=
  if b.hasColor then some ⟨false, coreTransform dayOf hourOf b.rows⟩ else none

theorem addTimeParts_idem (dayOf hourOf : ℤ → ℤ) (r : GpsRow) :
    addTimeParts dayOf hourOf (addTimeParts dayOf hourOf r) =
      addTimeParts dayOf hourOf r := rfl

theorem coreTransform_fixed (dayOf hourOf : ℤ → ℤ) (rows : List GpsRow) :
    ∀ y ∈ coreTransform dayOf hourOf rows, addTimeParts dayOf hourOf y = y := by
  intro y hy
  have hmem : y ∈ rows.map (addTimeParts dayOf hourOf) :=
    (List.mergeSort_perm (rows.map (addTimeParts dayOf hourOf)) _).mem_iff.mp hy
  obtain ⟨x, _, rfl⟩ := List.mem_map.mp hmem
  exact addTimeParts_idem dayOf hourOf x

theorem coreTransform_idem (dayOf hourOf : ℤ → ℤ) (rows : List GpsRow) :
    coreTransform dayOf hourOf (coreTransform dayOf hourOf rows) =
      coreTransform dayOf hourOf rows := by
  have hmap : (coreTransform dayOf hourOf rows).map (addTimeParts dayOf hourOf) =
      coreTransform dayOf hourOf rows := by
    calc (coreTransform dayOf hourOf rows).map (addTimeParts dayOf hourOf)
        = (coreTransform dayOf hourOf rows).map id :=
          List.map_congr_left (fun y hy => coreTransform_fixed dayOf hourOf rows y hy)
      _ = coreTransform dayOf hourOf rows := List.map_id _
  show ((coreTransform dayOf hourOf rows).map (addTimeParts dayOf hourOf)).mergeSort _ = _
  rw [hmap]
  apply List.mergeSort_of_sorted
  have := @List.sorted_mergeSort GpsRow
    (fun a b : GpsRow => decide (a.gpsdatetime ≤ b.gpsdatetime))
    (by intro a b c hab hbc; simp at hab hbc ⊢; omega)
    (by intro a b; simp [Int.le_total])
    (rows.map (addTimeParts dayOf hourOf))
  exact this

/-- **C6 (amended).** Preprocessing is not idempotent as implemented: one
application drops the `'color'` column, so a second application always fails
with `KeyError` on the drop.  The remainder of the operation — timestamp
parsing, day/hour derivation and the timestamp sort — is idempotent. -/
theorem preprocess_second_application_fails (dayOf hourOf : ℤ → ℤ) (b : GpsBatch) :
    ((preprocessGpsData dayOf hourOf b).bind (preprocessGpsData dayOf hourOf) = none) ∧
    coreTransform dayOf hourOf (coreTransform dayOf hourOf b.rows) =
      coreTransform dayOf hourOf b.rows := by
  refine ⟨?_, coreTransform_idem dayOf hourOf b.rows⟩
  unfold preprocessGpsData
  by_cases hc : b.hasColor
  · rw [if_pos hc]
    rfl
  · rw [if_neg hc]
    rfl

/-- A two-row batch with the `'color'` column present. -/
def colorBatch : GpsBatch := ⟨true, [⟨5, none, none, 0⟩, ⟨3, none, none, 1⟩]⟩

/-- **C6 counterexample.** On `colorBatch` one application of
`preprocess_gps_data` succeeds, but the double application fails (the
`'color'` column is gone), so `preprocess(preprocess(B)) ≠ preprocess(B)`. -/
theorem preprocess_idempotent_counterexample :
    (preprocessGpsData (fun t => t % 7) (fun t => t % 24) colorBatch).bind
        (preprocessGpsData (fun t => t % 7) (fun t => t % 24)) = none ∧
    preprocessGpsData (fun t => t % 7) (fun t => t % 24) colorBatch ≠ none ∧
    (preprocessGpsData (fun t => t % 7) (fun t => t % 24) colorBatch).bind
        (preprocessGpsData (fun t => t % 7) (fun t => t % 24)) ≠
      preprocessGpsData (fun t => t % 7) (fun t => t % 24) colorBatch := by
  refine ⟨rfl, fun h => Option.noConfusion h, fun h => Option.noConfusion h⟩

/-- `np.linspace(0, maxEta, num_bins)` edge `j` is `j·maxEta/(num_bins−1)`;
`pd.cut(eta, bins, labels=range(1, num_bins))` assigns a value `v` the label
`i` of the first interval `(edge (i−1), edge i]` containing it (`none` models
the `NaN` a value outside every interval receives, e.g. `v ≤ 0`). -/
def binOf (maxEta : ℚ) (numBins : ℕ) (v : ℚ) : Option ℕ :=
  ((List.range numBins).drop 1).find?
    (fun i => decide (((i : ℚ) - 1) * maxEta / ((numBins : ℚ) - 1) < v) &&
      decide (v ≤ (i : ℚ) * maxEta / ((numBins : ℚ) - 1)))

/-- `DataPreprocessor.categorize_stop`.  The preprocessor state is its
`stop_mean_eta` table: one entry per index key with the `eta` value and the
`categorized_stop` column (`none` when the column is absent or the cut gave
`NaN`).  Returns the table state after the call together with the per-row
categories mapped onto the batch's `next_stop_seq` keys (`none` on a
`KeyError`). -/
def categorizeStop {Key : Type} [DecidableEq Key] (stopMeanEta : List (Key × ℚ × Option ℕ))
    (numBins : ℕ) (gpsSeqs : List Key) :
    List (Key × ℚ × Option ℕ) × Option (List (Option ℕ)) :=
  let m := (stopMeanEta.map (fun e => e.2.1)).foldr max 0
  let newTable := stopMeanEta.map (fun e => (e.1, e.2.1, binOf m numBins e.2.1))
  let cats := mapMOpt
    (fun k => (newTable.find? (fun e => e.1 == k)).map (fun e => e.2.2)) gpsSeqs
  (newTable, cats)

/-- **C7 (amended).** `preprocess_gps_data` touches no preprocessor state at
all (it is a function of the batch alone), but `categorize_stop` does mutate
the held stop-mean-ETA table: it writes the `categorized_stop` column.  The
mutation is confined to that column — the keys and `eta` values of the table
are unchanged. -/
theorem categorize_mutates_only_category_column {Key : Type} [DecidableEq Key]
    (stopMeanEta : List (Key × ℚ × Option ℕ)) (numBins : ℕ) (gpsSeqs : List Key) :
    (categorizeStop stopMeanEta numBins gpsSeqs).1.map (fun e => (e.1, e.2.1)) =
      stopMeanEta.map (fun e => (e.1, e.2.1)) := by
  unfold categorizeStop
  dsimp only
  rw [List.map_map]
  rfl

/-- A one-stop table without the `categorized_stop` column. -/
def etaTable : List (ℕ × ℚ × Option ℕ) := [(0, 5, none)]

/-- **C7 counterexample.** Calling `categorize_stop` with `etaTable` held as
the preprocessor's stop-mean-ETA table changes that table: the entry for stop
`0` gains `categorized_stop = 1` (its `eta` equals the maximum, landing in
the last bin), so external state *is* mutated. -/
theorem categorize_purity_counterexample :
    (categorizeStop etaTable 2 []).1 = [(0, 5, some 1)] ∧
    [((0 : ℕ), (5 : ℚ), some 1)] ≠ etaTable := by
  constructor
  · unfold categorizeStop etaTable
    dsimp only
    norm_num [binOf, List.range, List.range.loop, List.find?]
  · intro h
    simp [etaTable] at h

/-! ## Polling-tick dispatch (`src/main.py`)

`append_history` prepends each vendor row (marked `is_new`) and appends that
vehicle's stored history only when it holds at least 10 rows;
`predict_eta` then *returns without doing anything* when
`new_df.groupby(["bus_code"]).count()["gpsdatetime"].max() < 10` — a guard on
the **maximum** per-vehicle row count, not a per-vehicle check — and
otherwise runs the per-vehicle pipeline (`eta_engine.predict_async`, taken as
the parameter `pipeline`) and writes each non-empty per-stop result to the
ETA store (`redis.hset`). -/

/-- `append_history(df)`: one `(bus, row)` per vendor row, followed by that
bus's history when `history_df.shape[0] >= 10`. -/
def appendHistory {Bus Row : Type} (hist : Bus → List Row) (mkNew : Bus → Row)
    (df : List Bus) : List (Bus × Row) :=
  df.flatMap (fun b =>
    (b, mkNew b) :: (if 10 ≤ (hist b).length then (hist b).map (fun r => (b, r)) else []))

/-- `new_df.groupby(["bus_code"]).count()["gpsdatetime"].max()`: `none` when
there are no rows (pandas `NaN`). -/
def maxGroupCount {Bus : Type} [DecidableEq Bus] (l : List Bus) : Option ℕ :=
  (l.dedup.map (fun b => l.count b)).max?

/-- The write loop of `predict_eta`: one `(stop, bus, eta)` store write per
entry of each non-empty per-vehicle prediction (`if not stops: continue`
skips both `None` and empty results). -/
def tickWrites {Bus Row Stop : Type} [DecidableEq Bus]
    (pipeline : Bus → List Row → Option (List (Stop × ℚ))) (ndf : List (Bus × Row))
    (df : List Bus) : List (Stop × Bus × ℚ) :=
  df.dedup.flatMap (fun b =>
    match pipeline b ((ndf.filter (fun p => p.1 == b)).map Prod.snd) with
    | none => []
    | some [] => []
    | some stops => stops.map (fun sp => (sp.1, b, sp.2)))

/-- `main.predict_eta(df)`: append history, return early (no writes) when the
maximum per-vehicle count is `< 10` (`NaN < 10` is false, so an empty frame
falls through), otherwise run the pipeline per vehicle and write. -/
def tickPredictEta {Bus Row Stop : Type} [DecidableEq Bus] (hist : Bus → List Row)
    (mkNew : Bus → Row) (pipeline : Bus → List Row → Option (List (Stop × ℚ)))
    (df : List Bus) : List (Stop × Bus × ℚ) :=
  let ndf := appendHistory hist mkNew df
  match maxGroupCount (ndf.map Prod.fst) with
  | some m => if m < 10 then [] else tickWrites pipeline ndf df
  | none => tickWrites pipeline ndf df

theorem appendHistory_eq_nil_iff {Bus Row : Type} (hist : Bus → List Row)
    (mkNew : Bus → Row) (df : List Bus) :
    appendHistory hist mkNew df = [] ↔ df = [] := by
  cases df with
  | nil => simp [appendHistory]
  | cons b rest =>
    simp only [appendHistory, List.flatMap_cons]
    constructor
    · intro h
      exact absurd h (by simp)
    · intro h
      exact absurd h (by simp)

/-- **C8 (amended).** The below-threshold skip is tick-global, not
per-vehicle: whenever *every* per-vehicle row count in the history-augmented
frame is below 10 (so the maximum is), the whole tick is skipped and nothing
is written to the per-stop ETA store — in particular a single vehicle with 9
history fixes and 1 new fix produces no writes. -/
theorem tick_skip_when_all_below {Bus Row Stop : Type} [DecidableEq Bus]
    (hist : Bus → List Row) (mkNew : Bus → Row)
    (pipeline : Bus → List Row → Option (List (Stop × ℚ))) (df : List Bus)
    (h : ∀ b ∈ (appendHistory hist mkNew df).map Prod.fst,
      ((appendHistory hist mkNew df).map Prod.fst).count b < 10) :
    tickPredictEta hist mkNew pipeline df = [] := by
  unfold tickPredictEta
  dsimp only
  cases hmax : maxGroupCount ((appendHistory hist mkNew df).map Prod.fst) with
  | none =>
    have hnil : (appendHistory hist mkNew df).map Prod.fst = [] := by
      unfold maxGroupCount at hmax
      rw [List.max?_eq_none_iff] at hmax
      have : ((appendHistory hist mkNew df).map Prod.fst).dedup = [] := by
        by_contra hne
        cases hd : ((appendHistory hist mkNew df).map Prod.fst).dedup with
        | nil => exact hne hd
        | cons x xs => rw [hd] at hmax; simp at hmax
      simpa [List.dedup_eq_nil] using this
    have hdf : df = [] := by
      rw [List.map_eq_nil_iff] at hnil
      exact (appendHistory_eq_nil_iff hist mkNew df).mp hnil
    subst hdf
    rfl
  | some m =>
    have hmem : m ∈ ((appendHistory hist mkNew df).map Prod.fst).dedup.map
        (fun b => ((appendHistory hist mkNew df).map Prod.fst).count b) :=
      List.max?_mem (fun a b => max_choice a b) hmax
    obtain ⟨b, hb, rfl⟩ := List.mem_map.mp hmem
    show (if List.count b ((appendHistory hist mkNew df).map Prod.fst) < 10 then
        ([] : List (Stop × Bus × ℚ))
      else tickWrites pipeline (appendHistory hist mkNew df) df) = []
    rw [if_pos (h b (List.mem_dedup.mp hb))]

/-- Vehicle history for the C8 runs: bus `0` has 10 stored rows, bus `1` has
none. -/
def cexHist : ℕ → List Unit := fun b => if b = 0 then List.replicate 10 () else []

/-- Per-vehicle pipeline results for the C8 counterexample: bus `1` (the
vehicle with a single fix) yields an ETA of 42 s at stop `7`. -/
def cexPipeline : ℕ → List Unit → Option (List (ℕ × ℚ)) :=
  fun b _ => if b = 1 then some [(7, 42)] else none

/-- **C8 counterexample.** In a tick containing bus `0` (10 history rows,
count 11) and bus `1` (no history, count 1), the guard
`max(per-vehicle counts) < 10` does not fire, and bus `1` — which has only 1
fix available, fewer than 10 — is processed and its result written to the
ETA store: the skip is *not* independent of the other vehicles in the tick. -/
theorem tick_skip_counterexample :
    tickPredictEta cexHist (fun _ => ()) cexPipeline [0, 1] = [(7, 1, 42)] ∧
    ((appendHistory cexHist (fun _ => ()) [0, 1]).map Prod.fst).count 1 = 1 ∧
    (1 : ℕ) < 10 ∧ [((7 : ℕ), (1 : ℕ), (42 : ℚ))] ≠ [] := by
  refine ⟨by decide, by decide, by decide, by decide⟩

/-- Witness for the amended C8: a single vehicle with 9 history rows and one
new fix — every count is below 10, so the tick writes nothing. -/
theorem tick_skip_when_all_below_witness :
    tickPredictEta (fun _ : ℕ => List.replicate 9 ()) (fun _ => ()) cexPipeline [1] = [] :=
  tick_skip_when_all_below (fun _ : ℕ => List.replicate 9 ()) (fun _ => ()) cexPipeline
    [1] (by decide)

end TJ
